import Mathlib

/-!
Verification of `Gauss_2d/Gauss2d.py` (Optical-beams-MEEP).

The script's own numerical content is:

* `complex_quad(func, a, b)` — integrates the real and the imaginary part of a
  complex-valued integrand separately with `scipy.integrate.quad` and returns
  `real + 1j*imag` together with the two quadrature tolerances;
* `Critical(n1, n2)` / `Brewster(n1, n2)` — critical and Brewster angle in
  degrees;
* `f_Gauss(k_y, params)` — the Gaussian spectrum amplitude
  `exp(-(k_y*W_y/2)**2)`;
* `Gauss(r, params)` — the waist profile `exp(-(r.y/W_y)**2)`;
* `psi(r, x, params)` — the plane-wave decomposition
  `complex_quad(lambda k_y: f_Gauss(k_y) * cmath.exp(1j*phase(k_y, x, r.y)), -k1, k1)`
  with `phase(k_y, x, y) = x*math.sqrt(k1**2 - k_y**2) + k_y*y`.

We embed these shallowly: the adaptive quadrature is idealised as the exact
interval integral of each real integrand (the value the quadrature
approximates), `math.sqrt`'s domain error on negative arguments is made
explicit as an `Option`, and the exception flow of `psi` (catch anything,
print, `sys.exit()`) is modelled as a small outcome type driven by the
outcomes of the two `quad` calls.
-/

open MeasureTheory Finset intervalIntegral

namespace Gauss2d

noncomputable section

/-- Position vector, mirroring the `mp.Vector3` objects handed to `psi`. -/
structure Vector3 where
  x : ℝ
  y : ℝ
  z : ℝ

/-- The parameter record `params = dict(W_y=w_0, k=k1)` of `Gauss2d.py`:
`W_y` is the beam waist width, `k` the wavenumber `k1` in the medium. -/
structure BeamParameters where
  W_y : ℝ
  k : ℝ

/-- Spectrum amplitude `f_Gauss(k_y, params)`: the Gaussian
`math.exp(-(k_y*W_y/2)**2)`. -/
def f_Gauss (k_y : ℝ) (params : BeamParameters) : ℝ :=
  Real.exp (-(k_y * params.W_y / 2) ^ 2)

/-- Waist profile `Gauss(r, params)`: the beam profile `math.exp(-(r.y/W_y)**2)` at the waist. -/
def Gauss (r : Vector3) (params : BeamParameters) : ℝ :=
  Real.exp (-(r.y / params.W_y) ^ 2)

/-- Python's `math.sqrt`: the real square root for a nonnegative argument, and a
`ValueError: math domain error` (modelled as `none`) for a negative one. -/
def mathSqrt (t : ℝ) : Option ℝ :=
  if 0 ≤ t then some (Real.sqrt t) else none

/-- The inner function `phase(k_y, x, y) = x*math.sqrt(k1**2 - k_y**2) + k_y*y`
of `psi`, with `math.sqrt`'s error behaviour on a negative argument kept
explicit. -/
def phaseChecked (k1 k_y x y : ℝ) : Option ℝ :=
  (mathSqrt (k1 ^ 2 - k_y ^ 2)).map fun s => x * s + k_y * y

/-- The value `phase(k_y, x, y)` takes where it is defined (on the integration
interval `[-k1, k1]` the argument of the square root is nonnegative, so
`math.sqrt` agrees with `Real.sqrt` there; see `phaseChecked_eq_phase`). -/
def phase (k1 k_y x y : ℝ) : ℝ :=
  x * Real.sqrt (k1 ^ 2 - k_y ^ 2) + k_y * y

/-- Model of `complex_quad(func, a, b)` with each `quad` call idealised as the exact
integral it approximates: integrate the real part and the imaginary part of
`f` separately over `[a, b]` and combine them as `real + 1j*imag`. -/
def complex_quad (f : ℝ → ℂ) (a b : ℝ) : ℂ :=
  ((∫ t in a..b, (f t).re : ℝ) : ℂ) + Complex.I * ((∫ t in a..b, (f t).im : ℝ) : ℂ)

/-- Field amplitude `psi(r, x, params)`: the plane-wave decomposition of the beam,
`complex_quad` of `f_Gauss(k_y, params) * cmath.exp(1j*phase(k_y, x, r.y))`
over `k_y` from `-k1` to `k1`. -/
def psi (r : Vector3) (x : ℝ) (params : BeamParameters) : ℂ :=
  complex_quad
    (fun k_y => (f_Gauss k_y params : ℂ) *
      Complex.exp (Complex.I * (phase params.k k_y x r.y : ℝ)))
    (-params.k) params.k

/-- The integrand of `psi` as a function of the transverse spatial frequency. -/
def integrand (params : BeamParameters) (x y : ℝ) (k_y : ℝ) : ℂ :=
  (f_Gauss k_y params : ℂ) * Complex.exp (Complex.I * (phase params.k k_y x y : ℝ))

/-- Conversion `math.degrees`: radians to degrees. -/
def degrees (x : ℝ) : ℝ := x * 180 / Real.pi

/-- Python's `math.asin`: defined on `[-1, 1]`, raises
`ValueError: math domain error` (modelled as `none`) outside. -/
def mathAsin (t : ℝ) : Option ℝ :=
  if -1 ≤ t ∧ t ≤ 1 then some (Real.arcsin t) else none

/-- Python float division: raises `ZeroDivisionError` (modelled as `none`) when
the denominator is zero. -/
def pyDiv (a b : ℝ) : Option ℝ :=
  if b = 0 then none else some (a / b)

/-- Model of `Critical(n1, n2)`: asserts `n1 > n2` (an `AssertionError` — the
script's rendering of the spec's DomainError — is modelled as `none`), then
returns `math.degrees(math.asin(n2/n1))`, where the division raises for
`n1 = 0` and `math.asin` raises for an argument outside `[-1, 1]`. -/
def Critical (n1 n2 : ℝ) : Option ℝ :=
  if n1 > n2 then (pyDiv n2 n1).bind fun q => (mathAsin q).map degrees
  else none

/-- Model of `Brewster(n1, n2) = math.degrees(math.atan(n2/n1))`. -/
def Brewster (n1 n2 : ℝ) : ℝ :=
  degrees (Real.arctan (n2 / n1))

/-- A Python exception as seen by `psi`'s handler: its type name and message. -/
structure PyExc where
  ty : String
  msg : String

/-- What a call to `psi` can do: return a value, let an exception propagate to
the caller, or terminate the whole process (`sys.exit()`). -/
inductive PsiOutcome where
  | value (z : ℂ)
  | raised (e : PyExc)
  | exited

/-- Discriminator: did the call let an exception propagate to the caller? -/
def PsiOutcome.isRaised : PsiOutcome → Bool
  | .raised _ => true
  | _ => false

/-- Data flow of `complex_quad` when each of the two `quad` calls either
returns `(value, abserr)` or raises: the real-part call runs first, and a
raised exception propagates. -/
def complex_quadRun (rq iq : Except PyExc (ℝ × ℝ)) : Except PyExc (ℂ × ℝ × ℝ) := do
  let (re, real_tol) ← rq
  let (im, imag_tol) ← iq
  pure (((re : ℂ) + Complex.I * (im : ℂ)), real_tol, imag_tol)

/-- The `try/except` of `psi` around `complex_quad`: any exception whatsoever is
caught, its type and message are printed, and the process exits via
`sys.exit()`; on success the complex result is returned. -/
def psiRun (rq iq : Except PyExc (ℝ × ℝ)) : PsiOutcome :=
  match complex_quadRun rq iq with
  | .ok (z, _, _) => .value z
  | .error _ => .exited

/-! ### Helper lemmas about the embedding -/

/-- Wherever the square-root argument is nonnegative — in particular everywhere
on the integration interval — `phase` is defined and takes the `Real.sqrt`
value. -/
theorem phaseChecked_eq_phase (k1 k_y x y : ℝ) (h : k_y ^ 2 ≤ k1 ^ 2) :
    phaseChecked k1 k_y x y = some (phase k1 k_y x y) := by
  unfold phaseChecked mathSqrt phase
  rw [if_pos (by linarith)]
  rfl

/-- On the happy path — `n1 > n2`, no zero division, `asin` argument in range —
`Critical` returns `degrees(asin(n2/n1))`. -/
theorem Critical_some (n1 n2 : ℝ) (h : n2 < n1) (h1 : n1 ≠ 0)
    (hlo : -1 ≤ n2 / n1) (hhi : n2 / n1 ≤ 1) :
    Critical n1 n2 = some (degrees (Real.arcsin (n2 / n1))) := by
  rw [Critical, if_pos h, pyDiv, if_neg h1]
  show (mathAsin (n2 / n1)).map degrees = some (degrees (Real.arcsin (n2 / n1)))
  rw [mathAsin, if_pos ⟨hlo, hhi⟩]
  rfl

theorem integrand_continuous (params : BeamParameters) (x y : ℝ) :
    Continuous (integrand params x y) := by
  unfold integrand f_Gauss phase
  fun_prop

/-- For a continuous integrand, integrating the real part and the imaginary
part separately and recombining them gives exactly the complex interval
integral. -/
theorem complex_quad_eq_integral (f : ℝ → ℂ) (hf : Continuous f) (a b : ℝ) :
    complex_quad f a b = ∫ t in a..b, f t := by
  have hre : IntervalIntegrable (fun t => ((f t).re : ℂ)) volume a b :=
    (Complex.continuous_ofReal.comp (Complex.continuous_re.comp hf)).intervalIntegrable a b
  have him : IntervalIntegrable (fun t => ((f t).im : ℂ) * Complex.I) volume a b :=
    ((Complex.continuous_ofReal.comp (Complex.continuous_im.comp hf)).mul
      continuous_const).intervalIntegrable a b
  have h1 : (∫ t in a..b, f t) =
      ∫ t in a..b, (((f t).re : ℂ) + ((f t).im : ℂ) * Complex.I) := by
    simp [Complex.re_add_im]
  rw [h1, intervalIntegral.integral_add hre him,
    intervalIntegral.integral_mul_const, intervalIntegral.integral_ofReal,
    intervalIntegral.integral_ofReal, complex_quad]
  ring

/-- The function `psi` equals the complex interval integral of its integrand. -/
theorem psi_eq_integral (r : Vector3) (x : ℝ) (params : BeamParameters) :
    psi r x params = ∫ t in (-params.k)..params.k, integrand params x r.y t := by
  have h : (fun k_y => (f_Gauss k_y params : ℂ) *
      Complex.exp (Complex.I * (phase params.k k_y x r.y : ℝ))) = integrand params x r.y := rfl
  rw [psi, h, complex_quad_eq_integral _ (integrand_continuous params x r.y)]

/-- The integrand has modulus at most `1`: the spectrum factor lies in `(0, 1]`
and the phase factor lies on the unit circle. -/
theorem integrand_norm_le_one (params : BeamParameters) (x y k_y : ℝ) :
    ‖integrand params x y k_y‖ ≤ 1 := by
  unfold integrand
  rw [norm_mul]
  have h1 : ‖((f_Gauss k_y params : ℝ) : ℂ)‖ ≤ 1 := by
    rw [Complex.norm_real, Real.norm_eq_abs, f_Gauss,
      abs_of_pos (Real.exp_pos _)]
    exact Real.exp_le_one_iff.mpr (neg_nonpos.mpr (sq_nonneg _))
  have h2 : ‖Complex.exp (Complex.I * (phase params.k k_y x y : ℝ))‖ = 1 := by
    rw [mul_comm, Complex.norm_eq_abs, Complex.abs_exp_ofReal_mul_I]
  rw [h2, mul_one]
  exact h1

/-- Crude but uniform bound: the modulus of `psi` is at most the length of the
integration interval. -/
theorem psi_norm_le (r : Vector3) (x : ℝ) (params : BeamParameters) :
    ‖psi r x params‖ ≤ 2 * |params.k| := by
  rw [psi_eq_integral]
  have h := intervalIntegral.norm_integral_le_of_norm_le_const
    (f := integrand params x r.y) (a := -params.k) (b := params.k) (C := 1)
    (fun t _ => integrand_norm_le_one params x r.y t)
  calc ‖∫ t in (-params.k)..params.k, integrand params x r.y t‖
      ≤ 1 * |params.k - -params.k| := h
    _ = 2 * |params.k| := by rw [one_mul, sub_neg_eq_add, ← two_mul, abs_mul]; norm_num

/-- Integral of an odd continuous function over a symmetric interval vanishes. -/
theorem integral_odd_eq_zero {g : ℝ → ℝ} (hg : Continuous g)
    (hodd : ∀ t, g (-t) = -g t) (k : ℝ) :
    ∫ t in (-k)..k, g t = 0 := by
  have h1 : ∫ t in (-k)..(0 : ℝ), g t = -∫ t in (0 : ℝ)..k, g t := by
    have hc := intervalIntegral.integral_comp_neg (a := (0 : ℝ)) (b := k) (f := g)
    simp only [neg_zero] at hc
    rw [← hc]
    simp only [hodd]
    exact intervalIntegral.integral_neg
  have h2 : (∫ t in (-k)..(0 : ℝ), g t) + ∫ t in (0 : ℝ)..k, g t = ∫ t in (-k)..k, g t :=
    intervalIntegral.integral_add_adjacent_intervals
      (hg.intervalIntegrable _ _) (hg.intervalIntegrable _ _)
  rw [← h2, h1]
  ring

/-! ### Degree-7 Taylor bounds for sine and cosine

`math.asin` and `math.atan` values of the angle helpers are pinned down
numerically through partial sums of the complex exponential series
(`Complex.exp_bound` with `n = 8`), giving `sin` and `cos` at rational points
to within `|x|^8 * 9/322560` — enough accuracy for the degree checks of the
spec. -/

theorem sin_sum8 (x : ℝ) :
    ((∑ m in range 8, (-(x : ℂ) * Complex.I) ^ m / m.factorial) -
      ∑ m in range 8, ((x : ℂ) * Complex.I) ^ m / m.factorial) * Complex.I / 2 =
      ((x - x ^ 3 / 6 + x ^ 5 / 120 - x ^ 7 / 5040 : ℝ) : ℂ) := by
  simp only [sum_range_succ, range_zero, sum_empty, pow_zero, pow_succ, neg_mul, mul_neg,
    neg_neg, Nat.factorial, Nat.cast_one, Nat.cast_mul, Nat.cast_ofNat, zero_add, div_one,
    Nat.mul_one, Nat.cast_succ]
  push_cast
  apply Complex.ext <;> simp [div_eq_mul_inv, Complex.normSq] <;> ring

theorem cos_sum8 (x : ℝ) :
    ((∑ m in range 8, ((x : ℂ) * Complex.I) ^ m / m.factorial) +
      ∑ m in range 8, (-(x : ℂ) * Complex.I) ^ m / m.factorial) / 2 =
      ((1 - x ^ 2 / 2 + x ^ 4 / 24 - x ^ 6 / 720 : ℝ) : ℂ) := by
  simp only [sum_range_succ, range_zero, sum_empty, pow_zero, pow_succ, neg_mul, mul_neg,
    neg_neg, Nat.factorial, Nat.cast_one, Nat.cast_mul, Nat.cast_ofNat, zero_add, div_one,
    Nat.mul_one, Nat.cast_succ]
  push_cast
  apply Complex.ext <;> simp [div_eq_mul_inv, Complex.normSq] <;> ring

theorem sin_taylor_bound {x : ℝ} (hx : |x| ≤ 1) :
    |Real.sin x - (x - x ^ 3 / 6 + x ^ 5 / 120 - x ^ 7 / 5040)| ≤ |x| ^ 8 * (9 / 322560) := by
  have habsP : Complex.abs ((x : ℂ) * Complex.I) = |x| := by
    rw [map_mul, Complex.abs_I, mul_one, Complex.abs_ofReal]
  have habsN : Complex.abs (-(x : ℂ) * Complex.I) = |x| := by
    rw [neg_mul, map_neg_eq_map, map_mul, Complex.abs_I, mul_one, Complex.abs_ofReal]
  calc |Real.sin x - (x - x ^ 3 / 6 + x ^ 5 / 120 - x ^ 7 / 5040)|
      = Complex.abs (Complex.sin x - ((x - x ^ 3 / 6 + x ^ 5 / 120 - x ^ 7 / 5040 : ℝ) : ℂ)) := by
        rw [← Complex.abs_ofReal]
        simp
    _ = Complex.abs (((Complex.exp (-(x : ℂ) * Complex.I) -
            ∑ m in range 8, (-(x : ℂ) * Complex.I) ^ m / m.factorial) -
          (Complex.exp ((x : ℂ) * Complex.I) -
            ∑ m in range 8, ((x : ℂ) * Complex.I) ^ m / m.factorial)) * Complex.I / 2) := by
        congr 1
        rw [Complex.sin, ← sin_sum8 x]
        ring
    _ ≤ Complex.abs ((Complex.exp (-(x : ℂ) * Complex.I) -
            ∑ m in range 8, (-(x : ℂ) * Complex.I) ^ m / m.factorial) * Complex.I / 2) +
          Complex.abs (-((Complex.exp ((x : ℂ) * Complex.I) -
            ∑ m in range 8, ((x : ℂ) * Complex.I) ^ m / m.factorial) * Complex.I) / 2) := by
        rw [sub_mul, sub_eq_add_neg, add_div]
        exact Complex.abs.add_le _ _
    _ = Complex.abs (Complex.exp (-(x : ℂ) * Complex.I) -
            ∑ m in range 8, (-(x : ℂ) * Complex.I) ^ m / m.factorial) / 2 +
          Complex.abs (Complex.exp ((x : ℂ) * Complex.I) -
            ∑ m in range 8, ((x : ℂ) * Complex.I) ^ m / m.factorial) / 2 := by
        simp [map_div₀, Complex.abs_I]
    _ ≤ Complex.abs (-(x : ℂ) * Complex.I) ^ 8 *
            (Nat.succ 8 * ((Nat.factorial 8) * (8 : ℕ) : ℝ)⁻¹) / 2 +
          Complex.abs ((x : ℂ) * Complex.I) ^ 8 *
            (Nat.succ 8 * ((Nat.factorial 8) * (8 : ℕ) : ℝ)⁻¹) / 2 := by
        gcongr
        · exact Complex.exp_bound (by simpa) (by norm_num)
        · exact Complex.exp_bound (by simpa) (by norm_num)
    _ ≤ |x| ^ 8 * (9 / 322560) := by
        rw [habsP, habsN]
        norm_num [Nat.factorial]

theorem cos_taylor_bound {x : ℝ} (hx : |x| ≤ 1) :
    |Real.cos x - (1 - x ^ 2 / 2 + x ^ 4 / 24 - x ^ 6 / 720)| ≤ |x| ^ 8 * (9 / 322560) := by
  have habsP : Complex.abs ((x : ℂ) * Complex.I) = |x| := by
    rw [map_mul, Complex.abs_I, mul_one, Complex.abs_ofReal]
  have habsN : Complex.abs (-(x : ℂ) * Complex.I) = |x| := by
    rw [neg_mul, map_neg_eq_map, map_mul, Complex.abs_I, mul_one, Complex.abs_ofReal]
  calc |Real.cos x - (1 - x ^ 2 / 2 + x ^ 4 / 24 - x ^ 6 / 720)|
      = Complex.abs (Complex.cos x - ((1 - x ^ 2 / 2 + x ^ 4 / 24 - x ^ 6 / 720 : ℝ) : ℂ)) := by
        rw [← Complex.abs_ofReal]
        simp
    _ = Complex.abs (((Complex.exp ((x : ℂ) * Complex.I) -
            ∑ m in range 8, ((x : ℂ) * Complex.I) ^ m / m.factorial) +
          (Complex.exp (-(x : ℂ) * Complex.I) -
            ∑ m in range 8, (-(x : ℂ) * Complex.I) ^ m / m.factorial)) / 2) := by
        congr 1
        rw [Complex.cos, ← cos_sum8 x]
        ring
    _ ≤ Complex.abs ((Complex.exp ((x : ℂ) * Complex.I) -
            ∑ m in range 8, ((x : ℂ) * Complex.I) ^ m / m.factorial) / 2) +
          Complex.abs ((Complex.exp (-(x : ℂ) * Complex.I) -
            ∑ m in range 8, (-(x : ℂ) * Complex.I) ^ m / m.factorial) / 2) := by
        rw [add_div]
        exact Complex.abs.add_le _ _
    _ = Complex.abs (Complex.exp ((x : ℂ) * Complex.I) -
            ∑ m in range 8, ((x : ℂ) * Complex.I) ^ m / m.factorial) / 2 +
          Complex.abs (Complex.exp (-(x : ℂ) * Complex.I) -
            ∑ m in range 8, (-(x : ℂ) * Complex.I) ^ m / m.factorial) / 2 := by
        simp [map_div₀]
    _ ≤ Complex.abs ((x : ℂ) * Complex.I) ^ 8 *
            (Nat.succ 8 * ((Nat.factorial 8) * (8 : ℕ) : ℝ)⁻¹) / 2 +
          Complex.abs (-(x : ℂ) * Complex.I) ^ 8 *
            (Nat.succ 8 * ((Nat.factorial 8) * (8 : ℕ) : ℝ)⁻¹) / 2 := by
        gcongr
        · exact Complex.exp_bound (by simpa) (by norm_num)
        · exact Complex.exp_bound (by simpa) (by norm_num)
    _ ≤ |x| ^ 8 * (9 / 322560) := by
        rw [habsP, habsN]
        norm_num [Nat.factorial]

/-- Rational bracket for `asin(1.00/1.54) = asin(50/77)`. -/
theorem arcsin_bounds_50_77 :
    70651 / 100000 ≤ Real.arcsin (50 / 77) ∧ Real.arcsin (50 / 77) ≤ 7068 / 10000 := by
  have hpi_lo : (3.141592 : ℝ) < Real.pi := Real.pi_gt_d6
  have hpi_hi : Real.pi < 3.141593 := Real.pi_lt_d6
  have hs_up := sin_taylor_bound (x := 7068 / 10000)
    (by rw [abs_of_pos (by norm_num : (0 : ℝ) < 7068 / 10000)]; norm_num)
  rw [abs_of_pos (by norm_num : (0 : ℝ) < 7068 / 10000)] at hs_up
  have hs_lo := sin_taylor_bound (x := 70651 / 100000)
    (by rw [abs_of_pos (by norm_num : (0 : ℝ) < 70651 / 100000)]; norm_num)
  rw [abs_of_pos (by norm_num : (0 : ℝ) < 70651 / 100000)] at hs_lo
  have h1 := (abs_le.mp hs_up).1
  have h2 := (abs_le.mp hs_lo).2
  have hup : (50 : ℝ) / 77 ≤ Real.sin (7068 / 10000) := by
    have hnum : (50 : ℝ) / 77 ≤
        (7068 / 10000 - (7068 / 10000) ^ 3 / 6 + (7068 / 10000) ^ 5 / 120 -
          (7068 / 10000) ^ 7 / 5040) - (7068 / 10000) ^ 8 * (9 / 322560) := by norm_num
    linarith
  have hlo : Real.sin (70651 / 100000) ≤ (50 : ℝ) / 77 := by
    have hnum : (70651 / 100000 - (70651 / 100000) ^ 3 / 6 + (70651 / 100000) ^ 5 / 120 -
        (70651 / 100000) ^ 7 / 5040) + (70651 / 100000) ^ 8 * (9 / 322560) ≤ (50 : ℝ) / 77 := by
      norm_num
    linarith
  constructor
  · have h3 : Real.arcsin (Real.sin (70651 / 100000)) ≤ Real.arcsin (50 / 77) :=
      Real.monotone_arcsin hlo
    rwa [Real.arcsin_sin (by linarith) (by linarith)] at h3
  · have h4 : Real.arcsin (50 / 77) ≤ Real.arcsin (Real.sin (7068 / 10000)) :=
      Real.monotone_arcsin hup
    rwa [Real.arcsin_sin (by linarith) (by linarith)] at h4

/-- Rational bracket for `atan(1.00/1.54) = atan(50/77)`. -/
theorem arctan_bounds_50_77 :
    57422 / 100000 ≤ Real.arctan (50 / 77) ∧ Real.arctan (50 / 77) ≤ 5777 / 10000 := by
  have hpi_lo : (3.141592 : ℝ) < Real.pi := Real.pi_gt_d6
  have hs_up := sin_taylor_bound (x := 5777 / 10000)
    (by rw [abs_of_pos (by norm_num : (0 : ℝ) < 5777 / 10000)]; norm_num)
  rw [abs_of_pos (by norm_num : (0 : ℝ) < 5777 / 10000)] at hs_up
  have hc_up := cos_taylor_bound (x := 5777 / 10000)
    (by rw [abs_of_pos (by norm_num : (0 : ℝ) < 5777 / 10000)]; norm_num)
  rw [abs_of_pos (by norm_num : (0 : ℝ) < 5777 / 10000)] at hc_up
  have hs_lo := sin_taylor_bound (x := 57422 / 100000)
    (by rw [abs_of_pos (by norm_num : (0 : ℝ) < 57422 / 100000)]; norm_num)
  rw [abs_of_pos (by norm_num : (0 : ℝ) < 57422 / 100000)] at hs_lo
  have hc_lo := cos_taylor_bound (x := 57422 / 100000)
    (by rw [abs_of_pos (by norm_num : (0 : ℝ) < 57422 / 100000)]; norm_num)
  rw [abs_of_pos (by norm_num : (0 : ℝ) < 57422 / 100000)] at hc_lo
  have hsu := abs_le.mp hs_up
  have hcu := abs_le.mp hc_up
  have hsl := abs_le.mp hs_lo
  have hcl := abs_le.mp hc_lo
  have hcos_pos_c : 0 < Real.cos (5777 / 10000) := by
    have hnum : (0 : ℝ) < (1 - (5777 / 10000) ^ 2 / 2 + (5777 / 10000) ^ 4 / 24 -
        (5777 / 10000) ^ 6 / 720) - (5777 / 10000) ^ 8 * (9 / 322560) := by norm_num
    linarith [hcu.1]
  have hcos_pos_d : 0 < Real.cos (57422 / 100000) := by
    have hnum : (0 : ℝ) < (1 - (57422 / 100000) ^ 2 / 2 + (57422 / 100000) ^ 4 / 24 -
        (57422 / 100000) ^ 6 / 720) - (57422 / 100000) ^ 8 * (9 / 322560) := by norm_num
    linarith [hcl.1]
  have htan_up : (50 : ℝ) / 77 ≤ Real.tan (5777 / 10000) := by
    rw [Real.tan_eq_sin_div_cos, le_div_iff₀ hcos_pos_c]
    have hnum : (50 : ℝ) / 77 * ((1 - (5777 / 10000) ^ 2 / 2 + (5777 / 10000) ^ 4 / 24 -
        (5777 / 10000) ^ 6 / 720) + (5777 / 10000) ^ 8 * (9 / 322560)) ≤
        (5777 / 10000 - (5777 / 10000) ^ 3 / 6 + (5777 / 10000) ^ 5 / 120 -
          (5777 / 10000) ^ 7 / 5040) - (5777 / 10000) ^ 8 * (9 / 322560) := by norm_num
    nlinarith [hsu.1, hcu.2]
  have htan_lo : Real.tan (57422 / 100000) ≤ (50 : ℝ) / 77 := by
    rw [Real.tan_eq_sin_div_cos, div_le_iff₀ hcos_pos_d]
    have hnum : (57422 / 100000 - (57422 / 100000) ^ 3 / 6 + (57422 / 100000) ^ 5 / 120 -
        (57422 / 100000) ^ 7 / 5040) + (57422 / 100000) ^ 8 * (9 / 322560) ≤
        (50 : ℝ) / 77 * ((1 - (57422 / 100000) ^ 2 / 2 + (57422 / 100000) ^ 4 / 24 -
          (57422 / 100000) ^ 6 / 720) - (57422 / 100000) ^ 8 * (9 / 322560)) := by norm_num
    nlinarith [hsl.2, hcl.1]
  constructor
  · have h3 : Real.arctan (Real.tan (57422 / 100000)) ≤ Real.arctan (50 / 77) :=
      Real.arctan_strictMono.monotone htan_lo
    rwa [Real.arctan_tan (by linarith) (by linarith)] at h3
  · have h4 : Real.arctan (50 / 77) ≤ Real.arctan (Real.tan (5777 / 10000)) :=
      Real.arctan_strictMono.monotone htan_up
    rwa [Real.arctan_tan (by linarith) (by linarith)] at h4

/-! ### C1: `psi` is the plane-wave decomposition integral -/

/-- C1: for positive waist width and wavenumber, `psi` returns the integral
over `k_t` from `-wavenumber` to `+wavenumber` of
`exp(-(k_t*waist_width/2)^2) * exp(i*(x*sqrt(wavenumber^2-k_t^2) + k_t*y))`,
and it computes it by integrating the real part and the imaginary part of the
integrand separately over that interval and combining them as
`real_part + i*imag_part`. -/
theorem psi_plane_wave_integral (params : BeamParameters) (r : Vector3) (x : ℝ)
    (hW : 0 < params.W_y) (hk : 0 < params.k) :
    psi r x params =
      (∫ t in (-params.k)..params.k,
        ((Real.exp (-(t * params.W_y / 2) ^ 2) : ℝ) : ℂ) *
          Complex.exp (Complex.I *
            ((x * Real.sqrt (params.k ^ 2 - t ^ 2) + t * r.y : ℝ) : ℂ))) ∧
    psi r x params =
      ((∫ t in (-params.k)..params.k, (integrand params x r.y t).re : ℝ) : ℂ) +
        Complex.I *
          ((∫ t in (-params.k)..params.k, (integrand params x r.y t).im : ℝ) : ℂ) := by
  constructor
  · rw [psi_eq_integral]
    rfl
  · rfl

/-- Witness for `psi_plane_wave_integral` at waist width `1`, wavenumber `1`,
evaluation point `(0, 0)`. -/
theorem psi_plane_wave_integral_witness :
    psi ⟨0, 0, 0⟩ 0 ⟨1, 1⟩ =
      (∫ t in (-(1 : ℝ))..(1 : ℝ),
        ((Real.exp (-(t * 1 / 2) ^ 2) : ℝ) : ℂ) *
          Complex.exp (Complex.I *
            ((0 * Real.sqrt ((1 : ℝ) ^ 2 - t ^ 2) + t * 0 : ℝ) : ℂ))) ∧
    psi ⟨0, 0, 0⟩ 0 ⟨1, 1⟩ =
      ((∫ t in (-(1 : ℝ))..(1 : ℝ), (integrand ⟨1, 1⟩ 0 0 t).re : ℝ) : ℂ) +
        Complex.I *
          ((∫ t in (-(1 : ℝ))..(1 : ℝ), (integrand ⟨1, 1⟩ 0 0 t).im : ℝ) : ℂ) :=
  psi_plane_wave_integral ⟨1, 1⟩ ⟨0, 0, 0⟩ 0 (by norm_num) (by norm_num)

/-! ### C2: the phase function and evanescent spatial frequencies -/

/-- C2 (counterexample): with wavenumber `1`, at the evanescent spatial
frequency `k_t = 2` (so `|k_t| > wavenumber`) and `x = 1, y = 0`, the phase
function raises a math domain error (`none`) instead of yielding an imaginary
result: `math.sqrt`, not a complex square root, is used in the code. -/
theorem phase_evanescent_cex :
    (1 : ℝ) < |(2 : ℝ)| ∧ phaseChecked 1 2 1 0 = none := by
  refine ⟨by norm_num, ?_⟩
  unfold phaseChecked mathSqrt
  rw [if_neg (by norm_num)]
  rfl

/-- C2 (amended): `phase(k_t, x, y) = x*sqrt(wavenumber^2 - k_t^2) + k_t*y`
uses the real-domain `math.sqrt`: it raises a math domain error for
`|k_t| > wavenumber` rather than returning an imaginary value, and it succeeds
with the real value whenever `k_t^2 ≤ wavenumber^2` — in particular at every
point of the integration interval `[-wavenumber, wavenumber]`, so `evaluate`
itself never triggers the error. -/
theorem phase_real_sqrt_domain (k1 k_y x y : ℝ) :
    (k_y ^ 2 ≤ k1 ^ 2 → phaseChecked k1 k_y x y = some (phase k1 k_y x y)) ∧
    (k1 ^ 2 < k_y ^ 2 → phaseChecked k1 k_y x y = none) ∧
    (∀ t ∈ Set.Icc (-k1) k1, phaseChecked k1 t x y = some (phase k1 t x y)) := by
  refine ⟨fun h => phaseChecked_eq_phase k1 k_y x y h, fun h => ?_, fun t ht => ?_⟩
  · unfold phaseChecked mathSqrt
    rw [if_neg (by linarith)]
    rfl
  · exact phaseChecked_eq_phase k1 t x y (sq_le_sq' ht.1 ht.2)

/-- Witness for `phase_real_sqrt_domain` at `k1 = 1`, `k_t = 0`, `x = y = 0`. -/
theorem phase_real_sqrt_domain_witness :
    phaseChecked 1 0 0 0 = some (phase 1 0 0 0) :=
  (phase_real_sqrt_domain 1 0 0 0).1 (by norm_num)

/-! ### C3: what happens when a quadrature call fails -/

/-- C3 (counterexample): when the real-part quadrature raises (here a concrete
`IntegrationWarning` escalated to an exception), `psi` does not surface any
`NumericalIntegrationError` to its caller: it catches the exception, prints
it, and terminates the whole process (`sys.exit()`). -/
theorem psiRun_exit_cex :
    psiRun (Except.error ⟨"IntegrationWarning",
        "The maximum number of subdivisions (50) has been achieved."⟩)
      (Except.ok (0, 0)) = PsiOutcome.exited ∧
    (psiRun (Except.error ⟨"IntegrationWarning",
        "The maximum number of subdivisions (50) has been achieved."⟩)
      (Except.ok (0, 0))).isRaised = false :=
  ⟨rfl, rfl⟩

/-- C3 (amended): on success of both `quad` calls `psi` returns
`real + 1j*imag`; if either call raises — whatever the exception — `psi`
catches it, prints it, and exits the process; no outcome of `psi` ever lets an
exception (in particular, a `NumericalIntegrationError`, which does not exist
in the code) propagate to the caller. -/
theorem psiRun_catches_and_exits :
    (∀ re rt im it : ℝ, psiRun (Except.ok (re, rt)) (Except.ok (im, it)) =
        PsiOutcome.value ((re : ℂ) + Complex.I * (im : ℂ))) ∧
    (∀ e iq, psiRun (Except.error e) iq = PsiOutcome.exited) ∧
    (∀ rq e, psiRun rq (Except.error e) = PsiOutcome.exited) ∧
    (∀ rq iq, (psiRun rq iq).isRaised = false) := by
  refine ⟨fun re rt im it => rfl, fun e iq => rfl, fun rq e => ?_, fun rq iq => ?_⟩
  · rcases rq with e' | ⟨re, rt⟩ <;> rfl
  · rcases rq with e' | ⟨re, rt⟩ <;> rcases iq with e'' | ⟨im, it⟩ <;> rfl

/-! ### C4: the waist-plane value versus the direct Gaussian profile -/

/-- C4 (counterexample): at waist width `2`, wavenumber `1/10`, longitudinal
offset `0` and transverse offset `0`, the direct Gaussian profile is
`exp(-(0/2)^2) = 1` while `psi` has modulus at most `2·(1/10) = 1/5`; the two
differ by at least `1/2` — orders of magnitude beyond any integration
tolerance.  The decomposition computed by the code is unnormalised (the exact
Fourier-pair identity would carry a prefactor `2√π/waist_width`) and truncated
to `|k_t| ≤ wavenumber`, so it does not reproduce `exp(-(y/W)^2)`. -/
theorem psi_waist_gauss_cex :
    (1 : ℝ) / 2 ≤
      ‖psi ⟨0, 0, 0⟩ 0 ⟨2, 1 / 10⟩ - ((Gauss ⟨0, 0, 0⟩ ⟨2, 1 / 10⟩ : ℝ) : ℂ)‖ := by
  have hG : Gauss ⟨0, 0, 0⟩ ⟨2, 1 / 10⟩ = 1 := by simp [Gauss]
  have hb : ‖psi ⟨0, 0, 0⟩ 0 ⟨2, 1 / 10⟩‖ ≤ 1 / 5 := by
    calc ‖psi ⟨0, 0, 0⟩ 0 ⟨2, 1 / 10⟩‖ ≤ 2 * |(1 : ℝ) / 10| :=
          psi_norm_le ⟨0, 0, 0⟩ 0 ⟨2, 1 / 10⟩
      _ = 1 / 5 := by rw [abs_of_pos (by norm_num : (0 : ℝ) < 1 / 10)]; norm_num
  rw [hG]
  have h1 := norm_sub_norm_le (1 : ℂ) (psi ⟨0, 0, 0⟩ 0 ⟨2, 1 / 10⟩)
  rw [norm_sub_rev] at h1
  have hn1 : ‖(1 : ℂ)‖ = 1 := by simp
  push_cast
  linarith

/-- C4 (amended): at the waist plane (`longitudinal_offset = 0`) the value of
`psi` is the truncated Fourier reconstruction of the Gaussian spectrum: a real
number (the imaginary sub-integral vanishes by oddness) equal to
`∫_{-k}^{k} exp(-(k_t·W/2)^2)·cos(k_t·y) dk_t`.  It reproduces the direct
profile `exp(-(y/W)^2)` only up to the missing normalisation and the
truncation of the spectrum to `|k_t| ≤ k`, not within integration
tolerance. -/
theorem psi_waist_plane (params : BeamParameters) (y : ℝ)
    (hW : 0 < params.W_y) (hk : 0 < params.k) :
    psi ⟨0, y, 0⟩ 0 params =
      ((∫ t in (-params.k)..params.k, f_Gauss t params * Real.cos (t * y) : ℝ) : ℂ) := by
  have hre : ∀ t : ℝ, (integrand params 0 y t).re = f_Gauss t params * Real.cos (t * y) := by
    intro t
    unfold integrand
    rw [show phase params.k t 0 y = t * y by unfold phase; ring, mul_comm Complex.I]
    simp only [Complex.mul_re, Complex.ofReal_re, Complex.ofReal_im,
      Complex.exp_ofReal_mul_I_re, Complex.exp_ofReal_mul_I_im, zero_mul, sub_zero]
  have him : ∀ t : ℝ, (integrand params 0 y t).im = f_Gauss t params * Real.sin (t * y) := by
    intro t
    unfold integrand
    rw [show phase params.k t 0 y = t * y by unfold phase; ring, mul_comm Complex.I]
    simp only [Complex.mul_im, Complex.ofReal_re, Complex.ofReal_im,
      Complex.exp_ofReal_mul_I_re, Complex.exp_ofReal_mul_I_im, zero_mul, add_zero]
  have hpsi : psi ⟨0, y, 0⟩ 0 params =
      ((∫ t in (-params.k)..params.k, (integrand params 0 y t).re : ℝ) : ℂ) +
        Complex.I *
          ((∫ t in (-params.k)..params.k, (integrand params 0 y t).im : ℝ) : ℂ) := rfl
  have h0 : (∫ t in (-params.k)..params.k, (integrand params 0 y t).im) = 0 := by
    rw [intervalIntegral.integral_congr
      (g := fun t => f_Gauss t params * Real.sin (t * y)) (fun t _ => him t)]
    apply integral_odd_eq_zero
    · unfold f_Gauss
      fun_prop
    · intro t
      have h1 : f_Gauss (-t) params = f_Gauss t params := by
        unfold f_Gauss
        ring_nf
      have h2 : Real.sin (-t * y) = -Real.sin (t * y) := by
        rw [neg_mul, Real.sin_neg]
      rw [h1, h2]
      ring
  have hr : (∫ t in (-params.k)..params.k, (integrand params 0 y t).re) =
      ∫ t in (-params.k)..params.k, f_Gauss t params * Real.cos (t * y) :=
    intervalIntegral.integral_congr (fun t _ => hre t)
  rw [hpsi, h0, hr]
  simp

/-- Witness for `psi_waist_plane` at waist width `1`, wavenumber `1`,
transverse offset `1`. -/
theorem psi_waist_plane_witness :
    psi ⟨0, 1, 0⟩ 0 ⟨1, 1⟩ =
      ((∫ t in (-(1 : ℝ))..(1 : ℝ), f_Gauss t ⟨1, 1⟩ * Real.cos (t * 1) : ℝ) : ℂ) :=
  psi_waist_plane ⟨1, 1⟩ 1 (by norm_num) (by norm_num)

/-! ### C5: symmetry of the modulus under transverse negation -/

/-- C5: for the symmetric Gaussian spectrum the modulus of `psi` is invariant
under negating the transverse offset (in fact the value itself is: the
substitution `k_t ↦ -k_t` maps the integrand at `-y` to the integrand at `y`,
using that the spectrum and the square root are even in `k_t`). -/
theorem psi_abs_transverse_symm (params : BeamParameters) (x y : ℝ)
    (hW : 0 < params.W_y) (hk : 0 < params.k) :
    Complex.abs (psi ⟨0, y, 0⟩ x params) = Complex.abs (psi ⟨0, -y, 0⟩ x params) := by
  have h : ∀ t : ℝ, integrand params x (-y) t = integrand params x y (-t) := by
    intro t
    unfold integrand f_Gauss phase
    ring_nf
  have key : psi ⟨0, -y, 0⟩ x params = psi ⟨0, y, 0⟩ x params := by
    rw [psi_eq_integral ⟨0, -y, 0⟩ x params, psi_eq_integral ⟨0, y, 0⟩ x params]
    have hcalc : (∫ t in (-params.k)..params.k, integrand params x (-y) t) =
        ∫ t in (-params.k)..params.k, integrand params x y t := by
      calc (∫ t in (-params.k)..params.k, integrand params x (-y) t)
          = ∫ t in (-params.k)..params.k, integrand params x y (-t) := by simp only [h]
        _ = ∫ t in (-params.k)..params.k, integrand params x y t := by
            simpa using intervalIntegral.integral_comp_neg (a := -params.k)
              (b := params.k) (f := integrand params x y)
    exact hcalc
  rw [key]

/-- Witness for `psi_abs_transverse_symm` at waist width `1`, wavenumber `1`,
evaluation point `(0, 1)`. -/
theorem psi_abs_transverse_symm_witness :
    Complex.abs (psi ⟨0, 1, 0⟩ 0 ⟨1, 1⟩) = Complex.abs (psi ⟨0, -1, 0⟩ 0 ⟨1, 1⟩) :=
  psi_abs_transverse_symm ⟨1, 1⟩ 0 1 (by norm_num) (by norm_num)

/-! ### C6: when the critical-angle helper fails -/

/-- C6 (counterexample): `Critical(1, -2)` has `n1 > n2`, yet it fails — the
assert passes and `math.asin(-2/1)` raises `ValueError: math domain error` —
so "fails iff `n1 ≤ n2`" and "for `n1 > n2` no error is raised" are both false
of the program. -/
theorem Critical_domain_error_cex :
    (-2 : ℝ) < 1 ∧ Critical 1 (-2) = none := by
  refine ⟨by norm_num, ?_⟩
  rw [Critical, if_pos (by norm_num : (-2 : ℝ) < 1), pyDiv,
    if_neg (by norm_num : (1 : ℝ) ≠ 0)]
  show (mathAsin ((-2 : ℝ) / 1)).map degrees = none
  rw [mathAsin, if_neg (by norm_num)]
  rfl

/-- C6 (amended): `Critical(n1, n2)` fails exactly when `n1 ≤ n2` (the assert,
the spec's DomainError), or `n1 = 0` (division error), or the `asin` argument
`n2/n1` lies outside `[-1, 1]` (math domain error).  In particular
`Critical(1.0, 1.5)` fails, and for `n1 > n2 ≥ 0` — where `n2/n1 ∈ [0, 1)` —
no error is raised. -/
theorem Critical_fails_iff_amended :
    (∀ n1 n2 : ℝ,
      Critical n1 n2 = none ↔ n1 ≤ n2 ∨ n1 = 0 ∨ n2 / n1 < -1 ∨ 1 < n2 / n1) ∧
    Critical 1 1.5 = none ∧
    (∀ n1 n2 : ℝ, 0 ≤ n2 → n2 < n1 → ∃ v, Critical n1 n2 = some v) := by
  refine ⟨fun n1 n2 => ?_, ?_, fun n1 n2 h2 h => ?_⟩
  · rw [Critical]
    split_ifs with h
    · rw [pyDiv]
      split_ifs with h0
      · show (Option.none.bind fun q => (mathAsin q).map degrees) = none ↔ _
        exact iff_of_true rfl (Or.inr (Or.inl h0))
      · show (mathAsin (n2 / n1)).map degrees = none ↔ _
        by_cases hd : -1 ≤ n2 / n1 ∧ n2 / n1 ≤ 1
        · rw [mathAsin, if_pos hd]
          refine iff_of_false (by simp) ?_
          rintro (hc | hc | hc | hc)
          · exact absurd h (not_lt.mpr hc)
          · exact h0 hc
          · linarith [hd.1]
          · linarith [hd.2]
        · rw [mathAsin, if_neg hd]
          refine iff_of_true rfl ?_
          rcases not_and_or.mp hd with hc | hc
          · exact Or.inr (Or.inr (Or.inl (not_le.mp hc)))
          · exact Or.inr (Or.inr (Or.inr (not_le.mp hc)))
    · exact iff_of_true rfl (Or.inl (not_lt.mp h))
  · rw [Critical, if_neg (by norm_num)]
  · have h1 : 0 < n1 := lt_of_le_of_lt h2 h
    have hq : 0 ≤ n2 / n1 := div_nonneg h2 h1.le
    exact ⟨degrees (Real.arcsin (n2 / n1)),
      Critical_some n1 n2 h h1.ne' (by linarith) ((div_le_one h1).mpr h.le)⟩

/-- Witness for `Critical_fails_iff_amended` at `n1 = 2`, `n2 = 1`. -/
theorem Critical_fails_iff_amended_witness :
    ∃ v, Critical 2 1 = some v :=
  Critical_fails_iff_amended.2.2 2 1 (by norm_num) (by norm_num)

/-! ### C7: the critical-angle value -/

/-- C7: for `n1 > n2 > 0` the critical angle is `asin(n2/n1)` converted to
degrees, and `Critical(1.54, 1.00)` is within `0.01` of `40.49` degrees. -/
theorem Critical_formula_and_value :
    (∀ n1 n2 : ℝ, 0 < n2 → n2 < n1 → Critical n1 n2 = some (degrees (Real.arcsin (n2 / n1)))) ∧
    (∃ v, Critical 1.54 1 = some v ∧ |v - 40.49| ≤ 0.01) := by
  have key : ∀ n1 n2 : ℝ, 0 < n2 → n2 < n1 →
      Critical n1 n2 = some (degrees (Real.arcsin (n2 / n1))) := by
    intro n1 n2 h2 h
    have h1 : 0 < n1 := h2.trans h
    have hq : 0 ≤ n2 / n1 := div_nonneg h2.le h1.le
    exact Critical_some n1 n2 h h1.ne' (by linarith) ((div_le_one h1).mpr h.le)
  refine ⟨key, ?_⟩
  · refine ⟨degrees (Real.arcsin (1 / 1.54)), key 1.54 1 (by norm_num) (by norm_num), ?_⟩
    have hq : (1 : ℝ) / 1.54 = 50 / 77 := by norm_num
    rw [hq, degrees]
    have hpi_lo : (3.141592 : ℝ) < Real.pi := Real.pi_gt_d6
    have hpi_hi : Real.pi < 3.141593 := Real.pi_lt_d6
    have hpos : (0 : ℝ) < Real.pi := by linarith
    have hb := arcsin_bounds_50_77
    have hA : (4048 / 100 : ℝ) ≤ Real.arcsin (50 / 77) * 180 / Real.pi := by
      rw [le_div_iff₀ hpos]
      linarith [hb.1]
    have hB : Real.arcsin (50 / 77) * 180 / Real.pi ≤ 4050 / 100 := by
      rw [div_le_iff₀ hpos]
      linarith [hb.2]
    rw [abs_le]
    constructor <;> linarith

/-- Witness for `Critical_formula_and_value` at `n1 = 2`, `n2 = 1`. -/
theorem Critical_formula_and_value_witness :
    Critical 2 1 = some (degrees (Real.arcsin (1 / 2))) :=
  Critical_formula_and_value.1 2 1 (by norm_num) (by norm_num)

/-! ### C8: the Brewster-angle value -/

/-- C8: for positive `n1, n2` the Brewster angle is `atan(n2/n1)` converted to
degrees (total — no failure mode), and `Brewster(1.54, 1.00)` is within `0.1`
of `33.0` degrees. -/
theorem Brewster_formula_and_value :
    (∀ n1 n2 : ℝ, 0 < n1 → 0 < n2 → Brewster n1 n2 = degrees (Real.arctan (n2 / n1))) ∧
    |Brewster 1.54 1 - 33| ≤ 0.1 := by
  constructor
  · intro n1 n2 _ _
    rfl
  · have hq : (1 : ℝ) / 1.54 = 50 / 77 := by norm_num
    rw [Brewster, hq, degrees]
    have hpi_lo : (3.141592 : ℝ) < Real.pi := Real.pi_gt_d6
    have hpi_hi : Real.pi < 3.141593 := Real.pi_lt_d6
    have hpos : (0 : ℝ) < Real.pi := by linarith
    have hb := arctan_bounds_50_77
    have hA : (329 / 10 : ℝ) ≤ Real.arctan (50 / 77) * 180 / Real.pi := by
      rw [le_div_iff₀ hpos]
      linarith [hb.1]
    have hB : Real.arctan (50 / 77) * 180 / Real.pi ≤ 331 / 10 := by
      rw [div_le_iff₀ hpos]
      linarith [hb.2]
    rw [abs_le]
    constructor <;> linarith

/-- Witness for `Brewster_formula_and_value` at `n1 = n2 = 1`. -/
theorem Brewster_formula_and_value_witness :
    Brewster 1 1 = degrees (Real.arctan (1 / 1)) :=
  Brewster_formula_and_value.1 1 1 (by norm_num) (by norm_num)

/-! ### C9: the degenerate-beam limit `wavenumber → 0⁺` -/

/-- C9: as the wavenumber tends to `0` from above the integration interval
collapses and `evaluate` tends to `0` (its modulus is bounded by the interval
length `2k` throughout, and no division by the wavenumber occurs anywhere in
`psi`), for every positive waist width and every evaluation point. -/
theorem psi_tendsto_zero_wavenumber (W x y : ℝ) (hW : 0 < W) :
    (∀ k : ℝ, ‖psi ⟨0, y, 0⟩ x ⟨W, k⟩‖ ≤ 2 * |k|) ∧
    Filter.Tendsto (fun k : ℝ => psi ⟨0, y, 0⟩ x ⟨W, k⟩)
      (nhdsWithin 0 (Set.Ioi 0)) (nhds 0) := by
  refine ⟨fun k => psi_norm_le ⟨0, y, 0⟩ x ⟨W, k⟩, ?_⟩
  refine squeeze_zero_norm (fun k => psi_norm_le ⟨0, y, 0⟩ x ⟨W, k⟩) ?_
  have hc : Filter.Tendsto (fun k : ℝ => 2 * |k|) (nhds 0) (nhds (2 * |(0 : ℝ)|)) :=
    (continuous_const.mul continuous_abs).tendsto 0
  simpa using hc.mono_left nhdsWithin_le_nhds

/-- Witness for `psi_tendsto_zero_wavenumber` at `W = 1`, evaluation point
`(0, 0)`. -/
theorem psi_tendsto_zero_wavenumber_witness :
    (∀ k : ℝ, ‖psi ⟨0, 0, 0⟩ 0 ⟨1, k⟩‖ ≤ 2 * |k|) ∧
    Filter.Tendsto (fun k : ℝ => psi ⟨0, 0, 0⟩ 0 ⟨1, k⟩)
      (nhdsWithin 0 (Set.Ioi 0)) (nhds 0) :=
  psi_tendsto_zero_wavenumber 1 0 0 (by norm_num)

/-! ### C10: `psi` reads only the transverse component of the position -/

/-- C10: the field amplitude depends only on the transverse component `r.y` of
the supplied position vector (and on the scalar longitudinal offset `x`): two
position vectors agreeing in `y` give the same complex amplitude, whatever
their `x` and `z` components. -/
theorem psi_depends_only_on_transverse (r1 r2 : Vector3) (x : ℝ)
    (params : BeamParameters) (h : r1.y = r2.y) :
    psi r1 x params = psi r2 x params := by
  unfold psi
  rw [h]

/-- Witness for `psi_depends_only_on_transverse`: two vectors differing in
their `x` and `z` components only. -/
theorem psi_depends_only_on_transverse_witness :
    psi ⟨5, 1, 7⟩ 2 ⟨1, 1⟩ = psi ⟨-3, 1, 0⟩ 2 ⟨1, 1⟩ :=
  psi_depends_only_on_transverse ⟨5, 1, 7⟩ ⟨-3, 1, 0⟩ 2 ⟨1, 1⟩ rfl

end

end Gauss2d
